import Mathlib

/-!
Shallow embedding of the goloadbalancer reverse proxy (src/main.go) together
with proofs about its backend-selection algorithm, health-check loop, startup
validation, configuration loading, and active-connection accounting.
-/

/-- Embedding of the Server struct (src/main.go lines 14-26). The URL field is
modelled by its string form; the mutex field Mu is not part of the pure data:
the sequential embeddings below model each guarded section executing
atomically, and the handler's lock/unlock sequence is modelled explicitly by
runHandler where it matters. -/
structure Server where
  URL : String
  ActiveConnections : Int
  Healthy : Bool
deriving DecidableEq

/-- Embedding of the scan loop of nextServerLeastActive (src/main.go lines
65-75). It threads the accumulator pair (leastActiveConnections,
leastActiveServer) and, as a third component, a ghost boolean recording
whether the legacy sentinel subexpression leastActiveConnections == -1 was
ever reached and evaluated to true. Under Go short-circuit evaluation that
subexpression is reached exactly when the entry is healthy and its count is
not below the current minimum. -/
def scanLoop : List Server → Int → Server → Bool → Int × Server × Bool
  | [], least, best, flag => (least, best, flag)
  | s :: ss, least, best, flag =>
    if s.Healthy = true ∧ (s.ActiveConnections < least ∨ least = -1) then
      scanLoop ss s.ActiveConnections s
        (flag || decide (s.Healthy = true ∧ ¬ s.ActiveConnections < least ∧ least = -1))
    else
      scanLoop ss least best
        (flag || decide (s.Healthy = true ∧ ¬ s.ActiveConnections < least ∧ least = -1))

/-- Embedding of nextServerLeastActive (src/main.go lines 61-78). The minimum
and the returned server are seeded from servers[0] without any health check
(lines 62-63), after which the whole slice is scanned. The none result models
the index-out-of-range panic that servers[0] raises on an empty slice. -/
def nextServerLeastActive (servers : List Server) : Option Server :=
  match servers with
  | [] => none
  | s0 :: rest => some (scanLoop (s0 :: rest) s0.ActiveConnections s0 false).2.1

/-- Ghost observation of nextServerLeastActive: whether the sentinel test
leastActiveConnections == -1 (src/main.go line 69) ever evaluated to true
during the scan. -/
def sentinelEverTrue (servers : List Server) : Bool :=
  match servers with
  | [] => false
  | s0 :: rest => (scanLoop (s0 :: rest) s0.ActiveConnections s0 false).2.2

/-- Embedding of the Config struct (src/main.go lines 33-39). -/
structure Config where
  HealthCheckInterval : String
  Servers : List String
  ListenPort : String
deriving DecidableEq

/-- Embedding of loadConfig (src/main.go lines 42-56). The two external
effects are passed in as arguments: readResult stands for the outcome of
os.ReadFile and unmarshal for json.Unmarshal on the bytes read. The function
merely sequences the two fallible steps; it inspects no field of the decoded
configuration. -/
def loadConfig (readResult : Except String String)
    (unmarshal : String → Except String Config) : Except String Config :=
  match readResult with
  | Except.error e => Except.error e
  | Except.ok bytes =>
    match unmarshal bytes with
    | Except.error e => Except.error e
    | Except.ok config => Except.ok config

/-- Embedding of the server-pool construction loop in main (src/main.go lines
91-98): each configured address is parsed (a parse failure is log.Fatalf,
modelled as none) and on success a Server with Healthy = true and the Go zero
value 0 for ActiveConnections is appended. -/
def buildPool (parseURL : String → Option String) : List String → Option (List Server)
  | [] => some []
  | u :: us =>
    match parseURL u with
    | none => none
    | some v =>
      match buildPool parseURL us with
      | none => none
      | some rest => some (⟨v, 0, true⟩ :: rest)

/-- Embedding of the startup sequence of main after loadConfig succeeds
(src/main.go lines 86-98): time.ParseDuration on the interval (failure is
log.Fatalf, modelled as none) followed by pool construction. A some result
models the process reaching http.ListenAndServe (line 139) with exactly that
pool registered in the request handler; none models an abort before the
listener starts. No step inspects whether the pool is empty. -/
def startupPool (cfg : Config) (parseDuration : String → Option Int)
    (parseURL : String → Option String) : Option (List Server) :=
  match parseDuration cfg.HealthCheckInterval with
  | none => none
  | some _ => buildPool parseURL cfg.Servers

/-- Modelled outcome of the HTTP probe http.Get in the health-check goroutine:
on success Go yields a response value carrying a status code. -/
structure ProbeResult where
  StatusCode : Int
deriving DecidableEq

/-- Embedding of one iteration of the health-check goroutine body
(src/main.go lines 104-119). The input none models http.Get returning a
non-nil error, in which case res is nil; the code then executes
res.Body.Close() (line 108) BEFORE consulting err, dereferencing the nil
response — a runtime panic, modelled as the none result. When the probe
succeeds (input some r) the body close is at most logged (line 109) and the
new value of the Healthy flag is computed from the status code (lines
113-117): false when the status is at least 500, true otherwise. -/
def healthCheckIteration (res : Option ProbeResult) : Option Bool :=
  match res with
  | none => none
  | some r => if r.StatusCode ≥ 500 then some false else some true

/-- Operations on the shared state performed by the request handler
(src/main.go lines 125-136), in execution order. lockOp is server.Mu.Lock(),
unlockOp is a deferred server.Mu.Unlock() running at handler return, incOp
and decOp are the mutations of server.ActiveConnections, serveOp is the
forwarding call server.Proxy().ServeHTTP. -/
inductive HandlerOp
  | lockOp
  | unlockOp
  | incOp
  | serveOp
  | decOp
deriving DecidableEq

/-- The request handler's operation sequence (src/main.go lines 125-136):
Lock (line 127), increment (line 129), forward (line 131), Lock again (line
133), decrement (line 135), then at return the two deferred Unlocks (lines
134 and 128, LIFO order). -/
def handlerBody : List HandlerOp :=
  [HandlerOp.lockOp, HandlerOp.incOp, HandlerOp.serveOp,
   HandlerOp.lockOp, HandlerOp.decOp, HandlerOp.unlockOp, HandlerOp.unlockOp]

/-- Result of running the handler against one backend: the final mutex state,
the final ActiveConnections value, and whether the handler ran to completion.
completed = false means the handler blocked forever. -/
structure HandlerOutcome where
  locked : Bool
  count : Int
  completed : Bool
deriving DecidableEq

/-- Executes a handler operation list against a backend whose mutex state and
ActiveConnections are given. A Lock on an already-held sync.Mutex blocks; the
only Unlock calls for this mutex are the handler's own deferred ones, which
run only at handler return, and any other goroutine touching this mutex
first has to Lock it too — so a blocked Lock here never unblocks and the
state at that point is final (completed = false). -/
def runHandler : List HandlerOp → Bool → Int → HandlerOutcome
  | [], locked, c => ⟨locked, c, true⟩
  | HandlerOp.lockOp :: rest, locked, c =>
    if locked then ⟨locked, c, false⟩ else runHandler rest true c
  | HandlerOp.unlockOp :: rest, _, c => runHandler rest false c
  | HandlerOp.incOp :: rest, locked, c => runHandler rest locked (c + 1)
  | HandlerOp.decOp :: rest, locked, c => runHandler rest locked (c - 1)
  | HandlerOp.serveOp :: rest, locked, c => runHandler rest locked c

/-- The two mutations of a backend's ActiveConnections field. -/
inductive CounterOp
  | inc
  | dec
deriving DecidableEq

/-- Effect of a counter operation on ActiveConnections (src/main.go lines 129
and 135). -/
def applyOp : CounterOp → Int → Int
  | CounterOp.inc, c => c + 1
  | CounterOp.dec, c => c - 1

/-- The counter operations the request handler performs on its chosen
backend, in program order: the increment at line 129 strictly precedes the
decrement at line 135. (Selection and the health-check goroutine never touch
ActiveConnections.) -/
def handlerCounterOps : List CounterOp := [CounterOp.inc, CounterOp.dec]

/-- Interleaved-execution state for one backend's counter: the remaining
counter-operation list of every dispatched (still live) handler, plus the
backend's current ActiveConnections. Pool construction (src/main.go line 97)
starts the counter at the Go zero value 0 with no handler dispatched. -/
structure CounterSim where
  pending : List (List CounterOp)
  count : Int
deriving DecidableEq

/-- One scheduler step: either a new request handler is dispatched, or some
live handler executes its next counter operation (the per-entry mutex makes
each operation atomic; a handler may also simply never progress, e.g. when it
deadlocks, which is modelled by never scheduling it again). -/
inductive HandlerStep : CounterSim → CounterSim → Prop
  | spawn (ps : List (List CounterOp)) (c : Int) :
      HandlerStep ⟨ps, c⟩ ⟨handlerCounterOps :: ps, c⟩
  | exec (l r : List (List CounterOp)) (op : CounterOp) (p : List CounterOp) (c : Int) :
      HandlerStep ⟨l ++ (op :: p) :: r, c⟩ ⟨l ++ p :: r, applyOp op c⟩

/-- States reachable from the freshly constructed backend (count 0, no
handlers live) by any interleaving of dispatches and handler steps. -/
def ReachableSim (s : CounterSim) : Prop :=
  Relation.ReflTransGen HandlerStep ⟨[], 0⟩ s

/-- A live handler that has executed its increment but not yet its
decrement. -/
def midFlight (p : List CounterOp) : Bool := decide (p = [CounterOp.dec])

/-- Invariant tying the counter to the handlers in flight: every live
handler's remaining program is a suffix of handlerCounterOps, and the counter
equals the number of handlers between their increment and their decrement. -/
def simInv (s : CounterSim) : Prop :=
  (∀ p ∈ s.pending, p = handlerCounterOps ∨ p = [CounterOp.dec] ∨ p = []) ∧
  s.count = (s.pending.countP midFlight : Int)

/-- Scenario B pool entry (unhealthy, 0 connections). -/
def serverB0 : Server := ⟨"http://b0", 0, false⟩

/-- Scenario B pool entry (healthy, 3 connections). -/
def serverB1 : Server := ⟨"http://b1", 3, true⟩

/-- Scenario B pool: [(unhealthy, 0), (healthy, 3)]. -/
def poolB : List Server := [serverB0, serverB1]

/-- Scenario C pool entry (unhealthy, 0 connections). -/
def serverC0 : Server := ⟨"http://c0", 0, false⟩

/-- Scenario C pool entry (unhealthy, 0 connections). -/
def serverC1 : Server := ⟨"http://c1", 0, false⟩

/-- Scenario C pool: [(unhealthy, 0), (unhealthy, 0)]. -/
def poolC : List Server := [serverC0, serverC1]

/-- Scenario A pool entry (healthy, 2 connections). -/
def serverA0 : Server := ⟨"http://a0", 2, true⟩

/-- Scenario A pool entry (healthy, 0 connections). -/
def serverA1 : Server := ⟨"http://a1", 0, true⟩

/-- Scenario A pool entry (healthy, 5 connections). -/
def serverA2 : Server := ⟨"http://a2", 5, true⟩

/-- Scenario A pool: [(healthy, 2), (healthy, 0), (healthy, 5)]. -/
def poolA : List Server := [serverA0, serverA1, serverA2]

/-- Tie-break counterexample pool entry (unhealthy, 0 connections). -/
def serverT0 : Server := ⟨"http://t0", 0, false⟩

/-- Tie-break counterexample pool entry (healthy, 0 connections). -/
def serverT1 : Server := ⟨"http://t1", 0, true⟩

/-- Tie-break counterexample pool entry (healthy, 0 connections). -/
def serverT2 : Server := ⟨"http://t2", 0, true⟩

/-- Tie-break counterexample pool: [(unhealthy, 0), (healthy, 0),
(healthy, 0)] — two healthy entries tied at the minimum. -/
def poolT : List Server := [serverT0, serverT1, serverT2]

/-- Tie-break witness pool entry (healthy, 5 connections). -/
def serverW0 : Server := ⟨"http://w0", 5, true⟩

/-- Tie-break witness pool entry (healthy, 1 connection). -/
def serverW1 : Server := ⟨"http://w1", 1, true⟩

/-- Tie-break witness pool entry (healthy, 1 connection). -/
def serverW2 : Server := ⟨"http://w2", 1, true⟩

/-- Sentinel witness pool. -/
def poolS : List Server := [⟨"http://s0", 1, true⟩, ⟨"http://s1", 0, false⟩]

/-- Configuration with an empty backend pool and an otherwise valid shape. -/
def configEmpty : Config := ⟨"10s", [], ":8080"⟩

/-- Stub for time.ParseDuration accepting exactly the interval string of
configEmpty. -/
def parseDurationStub : String → Option Int :=
  fun s => if s = "10s" then some 10 else none

/-- Stub for url.Parse that accepts every address. -/
def parseURLStub : String → Option String := fun s => some s

/-- Configuration whose fields are all empty yet syntactically decodable. -/
def emptyConfig : Config := ⟨"", [], ""⟩

/-- Stub for json.Unmarshal decoding to emptyConfig. -/
def unmarshalStub : String → Except String Config :=
  fun _ => Except.ok emptyConfig

/-- Claim C2: false on the code. For the pool [(unhealthy, 0), (healthy, 3)]
of spec Scenario B, nextServerLeastActive returns the unhealthy entry at
index 0, not the healthy entry at index 1: the minimum is seeded from
servers[0] without a health check, and no healthy entry has a strictly
smaller count, so the seed is never replaced. -/
theorem unhealthy_selected :
    serverB1.Healthy = true ∧
    nextServerLeastActive poolB = some serverB0 ∧
    serverB0.Healthy = false := by decide

/-- Claim C3: false on the code. For the all-unhealthy pool of spec Scenario
C, nextServerLeastActive has no error or sentinel result: it silently returns
the unhealthy entry servers[0] as a normal value, and the request handler
(src/main.go lines 125-131) forwards to it without checking Healthy. -/
theorem noHealthy_silent_return :
    (∀ s ∈ poolC, s.Healthy = false) ∧
    nextServerLeastActive poolC = some serverC0 ∧
    serverC0.Healthy = false := by decide

/-- Claim C7 counterexample: for the pool [(unhealthy, 0), (healthy, 0),
(healthy, 0)], which contains two healthy servers tied at the minimum count,
nextServerLeastActive returns the unhealthy entry at index 0 — not the tied
healthy server appearing earliest in pool order (index 1). -/
theorem tieBreak_counterexample :
    nextServerLeastActive poolT = some serverT0 ∧
    serverT0.Healthy = false ∧
    serverT1.Healthy = true ∧ serverT2.Healthy = true ∧
    serverT1.ActiveConnections = serverT2.ActiveConnections := by decide

/-- Claim C5: false on the code on the error path. When the probe fails
(http.Get returns a non-nil error, so res is nil) the iteration panics on
res.Body.Close() instead of marking the backend unhealthy — modelled by the
none outcome. The status-code mapping of the claim holds on the success
path: status 500 yields Healthy = false, statuses 200 and 499 yield
Healthy = true. -/
theorem healthCheck_outcomes :
    healthCheckIteration none = none ∧
    healthCheckIteration (some ⟨200⟩) = some true ∧
    healthCheckIteration (some ⟨500⟩) = some false ∧
    healthCheckIteration (some ⟨499⟩) = some true := by decide

/-- Claim C1: false on the code. Running the handler's operation sequence
against a backend with a free mutex and count 0 blocks at the second
Mu.Lock (src/main.go line 133): the lock taken at line 127 is still held
because its Unlock was deferred to handler return. The handler therefore
never completes, the decrement at line 135 never executes, and
ActiveConnections remains 1 instead of returning to 0. -/
theorem handler_never_decrements :
    runHandler handlerBody false 0 = ⟨true, 1, false⟩ := by decide

/-- Helper: with a non-negative seed and non-negative counts, the running
minimum of the scan stays non-negative and never increases. -/
theorem scanLoop_least_le (ss : List Server) :
    ∀ (least : Int) (best : Server) (flag : Bool),
    0 ≤ least → (∀ s ∈ ss, 0 ≤ s.ActiveConnections) →
    0 ≤ (scanLoop ss least best flag).1 ∧ (scanLoop ss least best flag).1 ≤ least := by
  induction ss with
  | nil =>
    intro least best flag hl _
    exact ⟨hl, le_refl least⟩
  | cons s ss ih =>
    intro least best flag hl hnn
    have hs0 : 0 ≤ s.ActiveConnections := hnn s (List.mem_cons_self s ss)
    have htail : ∀ t ∈ ss, 0 ≤ t.ActiveConnections :=
      fun t ht => hnn t (List.mem_cons_of_mem s ht)
    simp only [scanLoop]
    split_ifs with hc
    · rcases hc with ⟨_, hlt | hm1⟩
      · have h2 := ih s.ActiveConnections s
          (flag || decide (s.Healthy = true ∧ ¬ s.ActiveConnections < least ∧ least = -1))
          hs0 htail
        exact ⟨h2.1, le_trans h2.2 (le_of_lt hlt)⟩
      · exact absurd hm1 (by omega)
    · exact ih least best _ hl htail

/-- Helper: with a non-negative seed and non-negative counts, the ghost
sentinel flag never becomes true during the scan. -/
theorem scanLoop_flag_false (ss : List Server) :
    ∀ (least : Int) (best : Server),
    0 ≤ least → (∀ s ∈ ss, 0 ≤ s.ActiveConnections) →
    (scanLoop ss least best false).2.2 = false := by
  induction ss with
  | nil => intro least best _ _; rfl
  | cons s ss ih =>
    intro least best hl hnn
    have hs0 : 0 ≤ s.ActiveConnections := hnn s (List.mem_cons_self s ss)
    have htail : ∀ t ∈ ss, 0 ≤ t.ActiveConnections :=
      fun t ht => hnn t (List.mem_cons_of_mem s ht)
    have hdec : decide (s.Healthy = true ∧ ¬ s.ActiveConnections < least ∧ least = -1) = false := by
      rw [decide_eq_false_iff_not]
      rintro ⟨_, _, hm1⟩
      omega
    simp only [scanLoop, hdec, Bool.or_false]
    split_ifs with hc
    · exact ih s.ActiveConnections s hs0 htail
    · exact ih least best hl htail

/-- Helper: the scan keeps the tracked server's count equal to the tracked
minimum. -/
theorem scanLoop_best_count (ss : List Server) :
    ∀ (least : Int) (best : Server) (flag : Bool),
    best.ActiveConnections = least →
    (scanLoop ss least best flag).2.1.ActiveConnections = (scanLoop ss least best flag).1 := by
  induction ss with
  | nil => intro least best flag hb; exact hb
  | cons s ss ih =>
    intro least best flag hb
    simp only [scanLoop]
    split_ifs with hc
    · exact ih s.ActiveConnections s _ rfl
    · exact ih least best _ hb

/-- Helper: with a non-negative seed and non-negative counts, the final
minimum of the scan is at most the count of every healthy entry scanned. -/
theorem scanLoop_le_healthy (ss : List Server) :
    ∀ (least : Int) (best : Server) (flag : Bool),
    0 ≤ least → (∀ s ∈ ss, 0 ≤ s.ActiveConnections) →
    ∀ t ∈ ss, t.Healthy = true → (scanLoop ss least best flag).1 ≤ t.ActiveConnections := by
  induction ss with
  | nil =>
    intro _ _ _ _ _ t ht
    exact absurd ht (List.not_mem_nil t)
  | cons s ss ih =>
    intro least best flag hl hnn t ht hth
    have hs0 : 0 ≤ s.ActiveConnections := hnn s (List.mem_cons_self s ss)
    have htail : ∀ u ∈ ss, 0 ≤ u.ActiveConnections :=
      fun u hu => hnn u (List.mem_cons_of_mem s hu)
    simp only [scanLoop]
    split_ifs with hc
    · rcases List.mem_cons.mp ht with rfl | htss
      · exact (scanLoop_least_le ss t.ActiveConnections t _ hs0 htail).2
      · exact ih s.ActiveConnections s _ hs0 htail t htss hth
    · rcases List.mem_cons.mp ht with rfl | htss
      · have hle : least ≤ t.ActiveConnections := by
          by_contra hlt
          exact hc ⟨hth, Or.inl (by omega)⟩
        exact le_trans (scanLoop_least_le ss least best _ hl htail).2 hle
      · exact ih least best _ hl htail t htss hth

/-- Helper: when the tracked server is healthy with count equal to the
tracked minimum, the scan returns a healthy server which is either the
tracked one or sits at a position in the scanned list such that every healthy
entry before it has a strictly larger count than the final minimum (which is
then strictly below the seed). -/
theorem scanLoop_first_pos (ss : List Server) :
    ∀ (least : Int) (best : Server) (flag : Bool),
    0 ≤ least → best.ActiveConnections = least → best.Healthy = true →
    (∀ s ∈ ss, 0 ≤ s.ActiveConnections) →
    (scanLoop ss least best flag).2.1.Healthy = true ∧
    ((scanLoop ss least best flag).2.1 = best ∨
      ∃ l₁ l₂, ss = l₁ ++ (scanLoop ss least best flag).2.1 :: l₂ ∧
        (∀ t ∈ l₁, t.Healthy = true →
          (scanLoop ss least best flag).1 < t.ActiveConnections) ∧
        (scanLoop ss least best flag).1 < least) := by
  induction ss with
  | nil =>
    intro least best flag _ _ hbh _
    exact ⟨hbh, Or.inl rfl⟩
  | cons s ss ih =>
    intro least best flag hl hbc hbh hnn
    have hs0 : 0 ≤ s.ActiveConnections := hnn s (List.mem_cons_self s ss)
    have htail : ∀ t ∈ ss, 0 ≤ t.ActiveConnections :=
      fun t ht => hnn t (List.mem_cons_of_mem s ht)
    simp only [scanLoop]
    split_ifs with hc
    · rcases hc with ⟨hsh, hlt | hm1⟩
      · obtain ⟨ih1, ih2⟩ := ih s.ActiveConnections s
          (flag || decide (s.Healthy = true ∧ ¬ s.ActiveConnections < least ∧ least = -1))
          hs0 rfl hsh htail
        have hle := (scanLoop_least_le ss s.ActiveConnections s
          (flag || decide (s.Healthy = true ∧ ¬ s.ActiveConnections < least ∧ least = -1))
          hs0 htail).2
        refine ⟨ih1, Or.inr ?_⟩
        rcases ih2 with heq | ⟨l₁, l₂, hssEq, hl₁, hltleast⟩
        · refine ⟨[], ss, ?_, ?_, lt_of_le_of_lt hle hlt⟩
          · rw [heq]
            rfl
          · intro t ht
            exact absurd ht (List.not_mem_nil t)
        · refine ⟨s :: l₁, l₂, ?_, ?_, lt_trans hltleast hlt⟩
          · rw [List.cons_append, ← hssEq]
          · intro t ht
            rcases List.mem_cons.mp ht with rfl | htl
            · intro _
              exact hltleast
            · exact hl₁ t htl
      · exact absurd hm1 (by omega)
    · obtain ⟨ih1, ih2⟩ := ih least best
        (flag || decide (s.Healthy = true ∧ ¬ s.ActiveConnections < least ∧ least = -1))
        hl hbc hbh htail
      refine ⟨ih1, ?_⟩
      rcases ih2 with heq | ⟨l₁, l₂, hssEq, hl₁, hltleast⟩
      · exact Or.inl heq
      · refine Or.inr ⟨s :: l₁, l₂, ?_, ?_, hltleast⟩
        · rw [List.cons_append, ← hssEq]
        · intro t ht
          rcases List.mem_cons.mp ht with rfl | htl
          · intro hth
            have hle2 : least ≤ t.ActiveConnections := by
              by_contra hlt2
              exact hc ⟨hth, Or.inl (by omega)⟩
            exact lt_of_lt_of_le hltleast hle2
          · exact hl₁ t htl

/-- Claim C4: for every non-empty pool with at least one healthy server and
the data-model invariant that every ActiveConnections is non-negative
(spec section 3), the server returned by nextServerLeastActive has an
ActiveConnections value at most that of every healthy server in the pool. -/
theorem nextServer_leastLoaded (servers : List Server) (r : Server)
    (hh : ∃ s ∈ servers, s.Healthy = true)
    (hnn : ∀ s ∈ servers, 0 ≤ s.ActiveConnections)
    (hr : nextServerLeastActive servers = some r) :
    ∀ t ∈ servers, t.Healthy = true → r.ActiveConnections ≤ t.ActiveConnections := by
  cases servers with
  | nil => simp [nextServerLeastActive] at hr
  | cons s0 rest =>
    intro t ht hth
    have hs0 : 0 ≤ s0.ActiveConnections := hnn s0 (List.mem_cons_self s0 rest)
    have hr' : (scanLoop (s0 :: rest) s0.ActiveConnections s0 false).2.1 = r := by
      simpa [nextServerLeastActive] using hr
    have hbc := scanLoop_best_count (s0 :: rest) s0.ActiveConnections s0 false rfl
    have hle := scanLoop_le_healthy (s0 :: rest) s0.ActiveConnections s0 false hs0 hnn t ht hth
    rw [← hr', hbc]
    exact hle

/-- Claim C4 witness: instantiated at spec Scenario A, the pool
[(healthy, 2), (healthy, 0), (healthy, 5)], where the entry at index 1 is
returned and its count is at most that of the healthy entry at index 0. -/
theorem nextServer_leastLoaded_witness :
    serverA1.ActiveConnections ≤ serverA0.ActiveConnections :=
  nextServer_leastLoaded poolA serverA1 (by decide) (by decide) (by decide)
    serverA0 (by decide) (by decide)

/-- Claim C7 (amended): for every pool whose first entry is healthy and whose
counts are all non-negative, the returned server is healthy, its count is
the minimum over healthy entries, and every healthy entry occurring earlier
in pool order has a strictly greater count — so among healthy servers tied
at the minimum the earliest one in pool order is returned. Determinism of
repeated calls on an unchanged pool is immediate because the embedded
selection is a pure function of the pool. -/
theorem nextServer_tieBreak (s0 : Server) (rest : List Server) (r : Server)
    (h0 : s0.Healthy = true)
    (hnn : ∀ s ∈ s0 :: rest, 0 ≤ s.ActiveConnections)
    (hr : nextServerLeastActive (s0 :: rest) = some r) :
    r.Healthy = true ∧
    (∀ t ∈ s0 :: rest, t.Healthy = true → r.ActiveConnections ≤ t.ActiveConnections) ∧
    ∃ l₁ l₂, s0 :: rest = l₁ ++ r :: l₂ ∧
      ∀ t ∈ l₁, t.Healthy = true → r.ActiveConnections < t.ActiveConnections := by
  have hs0 : 0 ≤ s0.ActiveConnections := hnn s0 (List.mem_cons_self s0 rest)
  have hr' : (scanLoop (s0 :: rest) s0.ActiveConnections s0 false).2.1 = r := by
    simpa [nextServerLeastActive] using hr
  have hbc := scanLoop_best_count (s0 :: rest) s0.ActiveConnections s0 false rfl
  obtain ⟨hfp1, hfp2⟩ :=
    scanLoop_first_pos (s0 :: rest) s0.ActiveConnections s0 false hs0 rfl h0 hnn
  refine ⟨hr' ▸ hfp1, ?_, ?_⟩
  · intro t ht hth
    rw [← hr', hbc]
    exact scanLoop_le_healthy (s0 :: rest) s0.ActiveConnections s0 false hs0 hnn t ht hth
  · rcases hfp2 with heq | ⟨l₁, l₂, hEq, hstrict, _⟩
    · refine ⟨[], rest, ?_, ?_⟩
      · rw [← hr', heq]
        rfl
      · intro t ht
        exact absurd ht (List.not_mem_nil t)
    · refine ⟨l₁, l₂, by rw [← hr']; exact hEq, ?_⟩
      intro t ht hth
      rw [← hr', hbc]
      exact hstrict t ht hth

/-- Claim C7 witness: instantiated at the pool [(healthy, 5), (healthy, 1),
(healthy, 1)], whose two entries tied at the minimum are at indices 1 and 2;
the returned server (index 1) is healthy and its count is at most the tied
entry at index 2. -/
theorem nextServer_tieBreak_witness :
    serverW1.Healthy = true ∧ serverW1.ActiveConnections ≤ serverW2.ActiveConnections :=
  ⟨(nextServer_tieBreak serverW0 [serverW1, serverW2] serverW1
      (by decide) (by decide) (by decide)).1,
   (nextServer_tieBreak serverW0 [serverW1, serverW2] serverW1
      (by decide) (by decide) (by decide)).2.1 serverW2 (by decide) (by decide)⟩

/-- Claim C8: for every non-empty pool whose ActiveConnections are all
non-negative, the sentinel test leastActiveConnections == -1 inside
nextServerLeastActive never evaluates to true during the scan: the minimum is
seeded from the first entry's non-negative count and only ever lowered to
other non-negative counts, so the -1 branch is unreachable. -/
theorem sentinel_never_true (servers : List Server) (hne : servers ≠ [])
    (hnn : ∀ s ∈ servers, 0 ≤ s.ActiveConnections) :
    sentinelEverTrue servers = false := by
  cases servers with
  | nil => exact absurd rfl hne
  | cons s0 rest =>
    have hs0 : 0 ≤ s0.ActiveConnections := hnn s0 (List.mem_cons_self s0 rest)
    exact scanLoop_flag_false (s0 :: rest) s0.ActiveConnections s0 hs0 hnn

/-- Claim C8 witness: instantiated at a concrete two-entry pool with
non-negative counts. -/
theorem sentinel_never_true_witness : sentinelEverTrue poolS = false :=
  sentinel_never_true poolS (by decide) (by decide)

/-- Claim C6: false on the code. With an empty configured server list and a
parsable interval, the startup sequence of main performs no emptiness check:
it reaches http.ListenAndServe with an empty pool (startupPool returns some
[]), and the selection that the request handler then performs on the empty
pool hits the servers[0] panic (nextServerLeastActive [] = none) — at request
time, not at startup. -/
theorem emptyPool_reaches_listen (cfg : Config) (pd : String → Option Int)
    (pu : String → Option String)
    (hs : cfg.Servers = []) (hd : ∃ d, pd cfg.HealthCheckInterval = some d) :
    startupPool cfg pd pu = some [] ∧ nextServerLeastActive [] = none := by
  obtain ⟨d, hd⟩ := hd
  constructor
  · simp only [startupPool, hd, hs]
    rfl
  · rfl

/-- Claim C6 witness: instantiated at a concrete configuration with an empty
server list, interval string parsed by a concrete duration parser. -/
theorem emptyPool_reaches_listen_witness :
    startupPool configEmpty parseDurationStub parseURLStub = some [] ∧
    nextServerLeastActive [] = none :=
  emptyPool_reaches_listen configEmpty parseDurationStub parseURLStub rfl
    ⟨10, by decide⟩

/-- Claim C10: loadConfig succeeds exactly when both reading the file and
unmarshalling its bytes succeed, and whatever configuration the unmarshal
step produces — including one with an empty server list, an empty interval
string and an empty listen port — is returned unchanged, with no semantic
validation. -/
theorem loadConfig_no_validation (readResult : Except String String)
    (unmarshal : String → Except String Config) :
    ((∃ cfg, loadConfig readResult unmarshal = Except.ok cfg) ↔
      (∃ b, readResult = Except.ok b ∧ ∃ cfg, unmarshal b = Except.ok cfg)) ∧
    (∀ b cfg, readResult = Except.ok b → unmarshal b = Except.ok cfg →
      loadConfig readResult unmarshal = Except.ok cfg) := by
  constructor
  · cases readResult with
    | error e => simp [loadConfig]
    | ok b =>
      cases hu : unmarshal b with
      | error e => simp [loadConfig, hu]
      | ok cfg => simp [loadConfig, hu]
  · intro b cfg hb hu
    rw [hb]
    simp only [loadConfig, hu]

/-- Claim C10 witness: a successful read plus an unmarshal step producing the
all-empty configuration yields that configuration as a success, with no
validation error. -/
theorem loadConfig_no_validation_witness :
    loadConfig (Except.ok ("raw")) unmarshalStub = Except.ok emptyConfig :=
  (loadConfig_no_validation (Except.ok ("raw")) unmarshalStub).2
    ("raw") emptyConfig rfl rfl

/-- Helper: one scheduler step preserves the counter invariant. -/
theorem simInv_step {a b : CounterSim} (h : HandlerStep a b) (ha : simInv a) :
    simInv b := by
  cases h with
  | spawn ps c =>
    obtain ⟨h1, h2⟩ := ha
    constructor
    · intro p hp
      rcases List.mem_cons.mp hp with rfl | hps
      · exact Or.inl rfl
      · exact h1 p hps
    · have hmf : midFlight handlerCounterOps = false := by decide
      simp only [List.countP_cons, hmf]
      simpa using h2
  | exec l r op p c =>
    obtain ⟨h1, h2⟩ := ha
    have hmem : (op :: p) ∈ l ++ (op :: p) :: r :=
      List.mem_append.mpr (Or.inr (List.mem_cons_self (op :: p) r))
    have hcase := h1 (op :: p) hmem
    constructor
    · intro q hq
      rcases List.mem_append.mp hq with hql | hqr
      · exact h1 q (List.mem_append.mpr (Or.inl hql))
      · rcases List.mem_cons.mp hqr with hqp | hqr2
        · rcases hcase with hc1 | hc2 | hc3
          · have hp : op = CounterOp.inc ∧ p = [CounterOp.dec] := by
              simpa [handlerCounterOps] using hc1
            exact Or.inr (Or.inl (hqp.trans hp.2))
          · have hp : op = CounterOp.dec ∧ p = [] := by
              simpa using hc2
            exact Or.inr (Or.inr (hqp.trans hp.2))
          · exact absurd hc3 (List.cons_ne_nil op p)
        · exact h1 q (List.mem_append.mpr (Or.inr (List.mem_cons_of_mem _ hqr2)))
    · rcases hcase with hc1 | hc2 | hc3
      · have hop : op = CounterOp.inc ∧ p = [CounterOp.dec] := by
          simpa [handlerCounterOps] using hc1
        obtain ⟨rfl, rfl⟩ := hop
        have hold : c = ((l ++ (CounterOp.inc :: [CounterOp.dec]) :: r).countP midFlight : Int) := h2
        simp only [List.countP_append, List.countP_cons] at hold ⊢
        have hmf1 : midFlight [CounterOp.dec] = true := by decide
        have hmf2 : midFlight (CounterOp.inc :: [CounterOp.dec]) = false := by decide
        simp only [hmf1, hmf2] at hold ⊢
        simp only [applyOp]
        push_cast at hold ⊢
        omega
      · have hop : op = CounterOp.dec ∧ p = [] := by
          simpa using hc2
        obtain ⟨rfl, rfl⟩ := hop
        have hold : c = ((l ++ (CounterOp.dec :: ([] : List CounterOp)) :: r).countP midFlight : Int) := h2
        simp only [List.countP_append, List.countP_cons] at hold ⊢
        have hmf1 : midFlight ([] : List CounterOp) = false := by decide
        have hmf2 : midFlight (CounterOp.dec :: ([] : List CounterOp)) = true := by decide
        simp only [hmf1, hmf2] at hold ⊢
        simp only [applyOp]
        push_cast at hold ⊢
        omega
      · exact absurd hc3 (List.cons_ne_nil op p)

/-- Helper: the counter invariant holds in every reachable state. -/
theorem reachable_simInv {s : CounterSim} (h : ReachableSim s) : simInv s := by
  have h' : Relation.ReflTransGen HandlerStep ⟨[], 0⟩ s := h
  clear h
  induction h' with
  | refl =>
    constructor
    · intro p hp
      exact absurd hp (List.not_mem_nil p)
    · rfl
  | tail _ hstep ih => exact simInv_step hstep ih

/-- Claim C9: every server's ActiveConnections is never negative. Starting
from the freshly constructed backend (count 0, src/main.go line 97), under
every interleaving of request dispatches and handler counter operations —
each handler increments before it decrements (lines 129 and 135), and
selection and health probing never touch the counter — every reachable state
has a non-negative count. -/
theorem activeConnections_nonneg (s : CounterSim) (h : ReachableSim s) :
    0 ≤ s.count := by
  have h2 := (reachable_simInv h).2
  rw [h2]
  exact Int.natCast_nonneg _

/-- Claim C9 witness: the state with one handler mid-flight (after its
increment, before its decrement) and count 1 is reachable, and its count is
non-negative. -/
theorem activeConnections_nonneg_witness :
    0 ≤ (CounterSim.mk [[CounterOp.dec]] 1).count :=
  activeConnections_nonneg (CounterSim.mk [[CounterOp.dec]] 1)
    (Relation.ReflTransGen.tail
      (Relation.ReflTransGen.tail Relation.ReflTransGen.refl
        (HandlerStep.spawn [] 0))
      (HandlerStep.exec [] [] CounterOp.inc [CounterOp.dec] 0))
